import Mathlib

/-!
Verification of the `d_project` task runner core against its specification.

The development shallowly embeds the Python sources (`d_project/utils.py`,
`d_project/schema.py`) in Lean:

* paths and file contents are `String`s; the filesystem is an explicit
  association-list structure threaded through every operation;
* the MD5 digest is idealised as an injective function of the digested bytes
  (collisions are assumed not to occur, as the change-detection design of the
  program itself assumes); concretely the digest of a byte string is modelled
  by the byte string itself, and the digest of a canonically encoded lock
  entry (`srsly.json_dumps(..., sort_keys=True)` followed by MD5) is modelled
  by the canonical value itself, which the stable key ordering makes
  injective;
* `sys.exit` / raised exceptions are modelled with `Except`;
* subprocess execution is modelled by an oracle mapping the spawned command
  line and the current filesystem to a new filesystem and an exit code;
* Python's `sorted` over paths is modelled by insertion sort with respect to
  the lexicographic order on the characters of the path; on the duplicate-free
  path lists produced by a filesystem this agrees with any sorting algorithm.
-/

/-- Lexicographic order on character lists, mirroring Python's comparison of
path strings. -/
def strLeb : List Char → List Char → Bool
  | [], _ => true
  | _ :: _, [] => false
  | a :: as, b :: bs => if a = b then strLeb as bs else decide (a < b)

/-- Lookup in a Python-dict-like association list (keys are unique in every
dict the program builds, so first match is the match). -/
def dictGet (k : String) : List (String × α) → Option α
  | [] => none
  | (k', v) :: rest => if k' = k then some v else dictGet k rest

/-- Python dict assignment `d[k] = v`: replaces the value in place at the
first (and, in every dict the program builds, only) occurrence of the key,
otherwise appends the binding (insertion order semantics). -/
def dictInsert : List (String × α) → String → α → List (String × α)
  | [], k, v => [(k, v)]
  | (k', v') :: rest, k, v =>
    if k' = k then (k, v) :: rest else (k', v') :: dictInsert rest k v

/-- Python `{**a, **b}`: start from `a` and assign every binding of `b`
in order. -/
def dictMerge (a b : List (String × α)) : List (String × α) :=
  b.foldl (fun acc e => dictInsert acc e.1 e.2) a

theorem strLeb_total : ∀ as bs, strLeb as bs = true ∨ strLeb bs as = true := by
  intro as
  induction as with
  | nil => intro bs; exact Or.inl rfl
  | cons a as ih =>
    intro bs
    cases bs with
    | nil => exact Or.inr rfl
    | cons b bs =>
      by_cases hab : a = b
      · subst hab
        simpa [strLeb] using ih bs
      · rcases lt_or_gt_of_ne hab with h | h
        · left; simp [strLeb, hab, h]
        · right
          have hba : b ≠ a := fun e => hab e.symm
          simp [strLeb, hba, h]

theorem strLeb_trans :
    ∀ as bs cs, strLeb as bs = true → strLeb bs cs = true → strLeb as cs = true := by
  intro as
  induction as with
  | nil => intro bs cs _ _; rfl
  | cons a as ih =>
    intro bs cs h1 h2
    cases bs with
    | nil => simp [strLeb] at h1
    | cons b bs =>
      cases cs with
      | nil => simp [strLeb] at h2
      | cons c cs =>
        by_cases hab : a = b <;> by_cases hbc : b = c
        · subst hab; subst hbc
          simp only [strLeb, if_pos rfl] at h1 h2 ⊢
          exact ih bs cs h1 h2
        · subst hab
          simp only [strLeb, if_pos rfl] at h1
          simp only [strLeb, if_neg hbc, decide_eq_true_eq] at h2
          simp [strLeb, hbc, h2]
        · subst hbc
          simp only [strLeb, if_neg hab, decide_eq_true_eq] at h1
          simp [strLeb, hab, h1]
        · simp only [strLeb, if_neg hab, decide_eq_true_eq] at h1
          simp only [strLeb, if_neg hbc, decide_eq_true_eq] at h2
          have hac : a < c := lt_trans h1 h2
          have : a ≠ c := ne_of_lt hac
          simp [strLeb, this, hac]

theorem strLeb_antisymm :
    ∀ as bs, strLeb as bs = true → strLeb bs as = true → as = bs := by
  intro as
  induction as with
  | nil =>
    intro bs _ h2
    cases bs with
    | nil => rfl
    | cons b bs => simp [strLeb] at h2
  | cons a as ih =>
    intro bs h1 h2
    cases bs with
    | nil => simp [strLeb] at h1
    | cons b bs =>
      by_cases hab : a = b
      · subst hab
        simp only [strLeb, if_pos rfl] at h1 h2
        rw [ih bs h1 h2]
      · have hba : b ≠ a := fun e => hab e.symm
        simp only [strLeb, if_neg hab, decide_eq_true_eq] at h1
        simp only [strLeb, if_neg hba, decide_eq_true_eq] at h2
        exact absurd h1 (not_lt_of_gt h2)

theorem dictGet_insert_self (d : List (String × α)) (k : String) (v : α) :
    dictGet k (dictInsert d k v) = some v := by
  induction d with
  | nil => simp [dictInsert, dictGet]
  | cons e rest ih =>
    obtain ⟨k', v'⟩ := e
    by_cases he : k' = k
    · simp [dictInsert, he, dictGet]
    · simp [dictInsert, he, dictGet, ih]

theorem dictGet_insert_ne (d : List (String × α)) (k k' : String) (v : α)
    (h : k' ≠ k) : dictGet k' (dictInsert d k v) = dictGet k' d := by
  induction d with
  | nil => simp [dictInsert, dictGet, Ne.symm h]
  | cons e rest ih =>
    obtain ⟨k₁, v₁⟩ := e
    by_cases he : k₁ = k
    · subst he
      simp [dictInsert, dictGet, Ne.symm h]
    · by_cases he' : k₁ = k'
      · subst he'
        simp [dictInsert, dictGet, he]
      · simp [dictInsert, dictGet, he, he', ih]

theorem dictGet_merge_of_not_mem (b : List (String × α)) (k : String)
    (h : k ∉ b.map Prod.fst) :
    ∀ a, dictGet k (dictMerge a b) = dictGet k a := by
  induction b with
  | nil => intro a; rfl
  | cons e rest ih =>
    intro a
    simp only [List.map_cons, List.mem_cons, not_or] at h
    have : dictMerge a (e :: rest) = dictMerge (dictInsert a e.1 e.2) rest := rfl
    rw [this, ih h.2, dictGet_insert_ne _ _ _ _ h.1]

theorem dictGet_merge_of_mem (a b : List (String × α)) (k : String) (v : α)
    (hnd : (b.map Prod.fst).Nodup) (h : dictGet k b = some v) :
    dictGet k (dictMerge a b) = some v := by
  induction b generalizing a with
  | nil => simp [dictGet] at h
  | cons e rest ih =>
    obtain ⟨k₁, v₁⟩ := e
    simp only [List.map_cons, List.nodup_cons] at hnd
    have hstep : dictMerge a ((k₁, v₁) :: rest) = dictMerge (dictInsert a k₁ v₁) rest := rfl
    by_cases hk : k₁ = k
    · subst hk
      have hv : v₁ = v := by simpa [dictGet] using h
      subst hv
      rw [hstep, dictGet_merge_of_not_mem rest k₁ hnd.1]
      exact dictGet_insert_self a k₁ v₁
    · simp only [dictGet, if_neg hk] at h
      rw [hstep]
      exact ih _ hnd.2 h

/-! ## Data model

Fixed file names from `utils.py` and the typed counterparts of the dicts the
program manipulates. -/

def PROJECT_FILE : String := "project.yml"

def PROJECT_LOCK : String := "project.lock"

/-- Parsed YAML values, as produced by `srsly.read_yaml`. -/
inductive RawVal where
  | str (s : String)
  | boolean (b : Bool)
  | int (n : Int)
  | null
  | list (xs : List RawVal)
  | dict (kvs : List (String × RawVal))

/-- A parsed YAML mapping. -/
abbrev RawDict := List (String × RawVal)

/-- A command of the manifest, after schema validation (the typed counterpart
of the dict the program manipulates; defaults as declared in
`ProjectConfigCommand`). -/
structure Cmd where
  name : String
  help : Option String := none
  script : List String := []
  deps : List String := []
  outputs : List String := []
  outputs_no_cache : List String := []
  no_skip : Bool := false
deriving DecidableEq

/-- One `path`/`md5` pair of a lock entry, as built by `get_fileinfo`; `md5 =
none` records that the path did not exist when hashed. -/
structure FileInfo where
  path : String
  md5 : Option String
deriving DecidableEq

/-- A lockfile entry, as built by `get_lock_entry`. -/
structure LockEntry where
  cmd : String
  script : List String
  deps : List FileInfo
  outs : List FileInfo
deriving DecidableEq

/-- The parsed content of a `project.lock` file: a map command name ↦ entry. -/
abbrev Lockfile := List (String × LockEntry)

/-- The filesystem state threaded through the embedding: regular files (full
path ↦ byte content), directories, and the parsed contents of the `project.yml`
and `project.lock` files, keyed by their full paths.  The manifest and the
lockfile are modelled as separate stores so that their structured contents can
be stated directly. -/
structure FS where
  files : List (String × String) := []
  dirs : List String := []
  docs : List (String × RawDict) := []
  locks : List (String × Lockfile) := []

/-- Path concatenation `project_dir / path`. -/
def pathJoin (a b : String) : String := a ++ "/" ++ b

/-- Python `Path.is_file()`. -/
def FS.isFile (fs : FS) (p : String) : Bool := (dictGet p fs.files).isSome

/-- Python `Path.is_dir()`. -/
def FS.isDir (fs : FS) (p : String) : Bool := p ∈ fs.dirs

/-- Python `Path.exists()` (for the paths the program probes: regular files
and directories). -/
def FS.pathExists (fs : FS) (p : String) : Bool := fs.isFile p || fs.isDir p

/-! ## Content-addressed cache (`get_checksum`, `get_fileinfo`,
`get_lock_entry`, `get_hash`, `check_rerun`, `update_lockfile`) -/

/-- MD5, idealised as an injective digest of the input bytes: modelled by the
digested byte string itself (the program's change detection assumes
collision-freeness, and every verified statement about digests is a statement
about the digested canonical content). -/
def md5 (bytes : String) : String := bytes

/-- Order on `(path, content)` pairs by lexicographic path comparison, the
order in which `sorted(path.rglob("*"))` visits the files of a directory. -/
def pathLe (a b : String × String) : Prop := strLeb a.1.data b.1.data = true

instance : DecidableRel pathLe := fun a b =>
  inferInstanceAs (Decidable (strLeb a.1.data b.1.data = true))

instance : IsTotal (String × String) pathLe :=
  ⟨fun a b => strLeb_total a.1.data b.1.data⟩

instance : IsTrans (String × String) pathLe :=
  ⟨fun a b c => strLeb_trans a.1.data b.1.data c.1.data⟩

/-- Python's `sorted` over the files of a directory, modelled by insertion
sort; on the duplicate-free path lists of a filesystem this agrees with any
sorting algorithm. -/
def sortByPath (l : List (String × String)) : List (String × String) :=
  List.insertionSort pathLe l

/-- The regular files below a directory, as enumerated by `path.rglob("*")`
filtered by `is_file()`. -/
def filesUnder (fs : FS) (dir : String) : List (String × String) :=
  fs.files.filter (fun e => (dir ++ "/").data.isPrefixOf e.1.data)

/-- Embeds `get_checksum`: digest of a regular file's exact bytes; for a
directory, digest of the concatenation of the contained regular files' bytes
in sorted full-path order; `none` models the `msg.fail(..., exits=1)` for a
path that is neither (never reached through `get_fileinfo`, which guards with
`exists()`). -/
def get_checksum (fs : FS) (p : String) : Option String :=
  if fs.isFile p then (dictGet p fs.files).map md5
  else if fs.isDir p then
    some (md5 (String.join ((sortByPath (filesUnder fs p)).map Prod.snd)))
  else none

/-- Embeds `get_fileinfo`: one `path`/`md5` record per path, `md5 = None` when
the path does not exist. -/
def get_fileinfo (fs : FS) (project_dir : String) (paths : List String) :
    List FileInfo :=
  paths.map fun path =>
    let file_path := pathJoin project_dir path
    { path := path
      md5 := if fs.pathExists file_path then get_checksum fs file_path else none }

/-- Embeds `get_lock_entry`. -/
def get_lock_entry (fs : FS) (project_dir : String) (command : Cmd) : LockEntry :=
  let deps := get_fileinfo fs project_dir command.deps
  let outs := get_fileinfo fs project_dir command.outputs
  let outs_nc := get_fileinfo fs project_dir command.outputs_no_cache
  { cmd := "project run " ++ command.name
    script := command.script
    deps := deps
    outs := outs ++ outs_nc }

/-- The digest of a canonically encoded lock entry. -/
structure Digest where
  canon : LockEntry
deriving DecidableEq

/-- Embeds `get_hash` on lock entries: `srsly.json_dumps(data, sort_keys=True)`
followed by MD5.  The canonical encoding with stable key ordering is injective
on lock entries (every key is always present, in a fixed order), and MD5 is
idealised as collision-free, so the composite digest is modelled by the
canonicalised value itself. -/
def get_hash (data : LockEntry) : Digest := ⟨data⟩

/-- Embeds `check_rerun`. -/
def check_rerun (fs : FS) (project_dir : String) (command : Cmd) : Bool :=
  if command.no_skip then true
  else
    match dictGet (pathJoin project_dir PROJECT_LOCK) fs.locks with
    | none => true
    | some data =>
      match dictGet command.name data with
      | none => true
      | some entry =>
        if entry.outs.isEmpty then true
        else decide (get_hash (get_lock_entry fs project_dir command) ≠ get_hash entry)

/-- Embeds `update_lockfile`: create the lockfile if missing, overwrite this
command's entry, rewrite the whole map. -/
def update_lockfile (fs : FS) (project_dir : String) (command : Cmd) : FS :=
  let lock_path := pathJoin project_dir PROJECT_LOCK
  let data := (dictGet lock_path fs.locks).getD []
  let data := dictInsert data command.name (get_lock_entry fs project_dir command)
  { fs with locks := dictInsert fs.locks lock_path data }

/-! ## Schema validation (`schema.py`)

`validate(ProjectConfigSchema, config)` collects pydantic error messages.
`ProjectConfigCommand` declares `extra = "forbid"`, so unrecognised command
fields are errors; `ProjectConfigSchema` declares no such option, so pydantic
falls back to its default of silently ignoring unrecognised top-level keys.
Scalar coercions beyond the exact declared types (for example pydantic
accepting the integer `1` for a `bool` field) are not modelled; the error
message texts are abbreviated. -/

def commandFields : List String :=
  ["name", "help", "script", "deps", "outputs", "outputs_no_cache", "no_skip"]

def topLevelFields : List String :=
  ["vars", "env", "workflows", "commands", "title", "description"]

/-- Check that a parsed YAML list consists of strings (`List[StrictStr]`). -/
def isStrList : List RawVal → Bool
  | [] => true
  | .str _ :: rest => isStrList rest
  | _ => false

/-- Validation of one `List[StrictStr]` command field with default `[]`. -/
def validateStrListField (fieldName : String) (v : Option RawVal) : List String :=
  match v with
  | none => []
  | some (.list xs) =>
    if isStrList xs then [] else [fieldName ++ ": str type expected"]
  | some _ => [fieldName ++ ": value is not a valid list"]

/-- Embeds validation against `ProjectConfigCommand` (`extra = "forbid"`). -/
def validateProjectConfigCommand (kvs : RawDict) : List String :=
  (match dictGet "name" kvs with
    | none => ["name: field required"]
    | some (.str _) => []
    | some _ => ["name: str type expected"]) ++
  (match dictGet "help" kvs with
    | none => []
    | some (.str _) => []
    | some .null => []
    | some _ => ["help: str type expected"]) ++
  validateStrListField "script" (dictGet "script" kvs) ++
  validateStrListField "deps" (dictGet "deps" kvs) ++
  validateStrListField "outputs" (dictGet "outputs" kvs) ++
  validateStrListField "outputs_no_cache" (dictGet "outputs_no_cache" kvs) ++
  (match dictGet "no_skip" kvs with
    | none => []
    | some (.boolean _) => []
    | some _ => ["no_skip: value could not be parsed to a boolean"]) ++
  (kvs.filter (fun e => e.1 ∉ commandFields)).map
    (fun e => e.1 ++ ": extra fields not permitted")

/-- Embeds validation against `ProjectConfigSchema`.  The declared fields are
checked; unrecognised top-level keys are ignored (no `extra = "forbid"` on
this model, so pydantic keeps its permissive default). -/
def validateProjectConfigSchema (doc : RawDict) : List String :=
  (match dictGet "vars" doc with
    | none => []
    | some (.dict _) => []
    | some _ => ["vars: value is not a valid dict"]) ++
  (match dictGet "env" doc with
    | none => []
    | some (.dict _) => []
    | some _ => ["env: value is not a valid dict"]) ++
  (match dictGet "workflows" doc with
    | none => []
    | some (.dict kvs) =>
      (kvs.map (fun e =>
        match e.2 with
        | .list xs =>
          if isStrList xs then [] else ["workflows -> " ++ e.1 ++ ": str type expected"]
        | _ => ["workflows -> " ++ e.1 ++ ": value is not a valid list"])).flatten
    | some _ => ["workflows: value is not a valid dict"]) ++
  (match dictGet "commands" doc with
    | none => []
    | some (.list xs) =>
      (xs.map (fun v =>
        match v with
        | .dict kvs => validateProjectConfigCommand kvs
        | _ => ["commands: value is not a valid dict"])).flatten
    | some _ => ["commands: value is not a valid list"]) ++
  (match dictGet "title" doc with
    | none => []
    | some (.str _) => []
    | some .null => []
    | some _ => ["title: str type expected"]) ++
  (match dictGet "description" doc with
    | none => []
    | some (.str _) => []
    | some .null => []
    | some _ => ["description: str type expected"])

/-! ## Config extraction

After validation the program keeps working with the raw dict
(`config.get(...)`, `cmd["name"]`); these helpers model those accesses,
including the accesses to keys the schema never validated (`directories`,
`check_requirements`). -/

/-- The string elements of a parsed YAML list value. -/
def asStrList : RawVal → List String
  | .list xs => xs.filterMap (fun v => match v with | .str s => some s | _ => none)
  | _ => []

/-- The typed view of one command dict (defaults as in
`ProjectConfigCommand`). -/
def cmdOfRaw (kvs : RawDict) : Cmd :=
  { name := match dictGet "name" kvs with | some (.str s) => s | _ => ""
    help := match dictGet "help" kvs with | some (.str s) => some s | _ => none
    script := match dictGet "script" kvs with | some v => asStrList v | none => []
    deps := match dictGet "deps" kvs with | some v => asStrList v | none => []
    outputs := match dictGet "outputs" kvs with | some v => asStrList v | none => []
    outputs_no_cache :=
      match dictGet "outputs_no_cache" kvs with | some v => asStrList v | none => []
    no_skip := match dictGet "no_skip" kvs with | some (.boolean b) => b | _ => false }

/-- Models `config.get("commands", [])`. -/
def rawCommands (doc : RawDict) : List Cmd :=
  match dictGet "commands" doc with
  | some (.list xs) =>
    xs.filterMap (fun v => match v with | .dict kvs => some (cmdOfRaw kvs) | _ => none)
  | _ => []

/-- Models `config.get("workflows", {})`. -/
def rawWorkflows (doc : RawDict) : List (String × List String) :=
  match dictGet "workflows" doc with
  | some (.dict kvs) => kvs.map (fun e => (e.1, asStrList e.2))
  | _ => []

/-- Models `config.get("directories", [])`. -/
def rawDirectories (doc : RawDict) : List String :=
  match dictGet "directories" doc with
  | some v => asStrList v
  | none => []

/-- Models `config.get("check_requirements", True)`. -/
def rawCheckRequirements (doc : RawDict) : Bool :=
  match dictGet "check_requirements" doc with
  | some (.boolean b) => b
  | _ => true

/-- The parts of the loaded manifest that the execution engine consumes. -/
structure Config where
  commands : List Cmd := []
  workflows : List (String × List String) := []
  directories : List String := []
  check_requirements : Bool := true
deriving DecidableEq

def extractConfig (doc : RawDict) : Config :=
  { commands := rawCommands doc
    workflows := rawWorkflows doc
    directories := rawDirectories doc
    check_requirements := rawCheckRequirements doc }

/-! ## Manifest loading (`validate_project_commands`, `load_project_config`) -/

/-- Embeds `validate_project_commands`: the list of diagnostics it prints to
the console.  The function only prints — it neither raises nor exits, so these
are warnings (apostrophes are elided from the message texts). -/
def validate_project_commands (doc : RawDict) : List String :=
  let command_names := (rawCommands doc).map Cmd.name
  let workflows := rawWorkflows doc
  let duplicates := (command_names.filter (fun c => command_names.count c > 1)).dedup
  (if duplicates.isEmpty then []
   else ["Duplicate commands defined in " ++ PROJECT_FILE ++ ": " ++
          String.intercalate ", " duplicates]) ++
  (workflows.map (fun wf =>
    (if wf.1 ∈ command_names then
      ["Cannot use workflow name " ++ wf.1 ++ ": name already exists as a command"]
     else []) ++
    (wf.2.filter (fun step => step ∉ command_names)).map
      (fun step => "Unknown command specified in workflow " ++ wf.1 ++ ": " ++ step))).flatten

inductive LoadError where
  | manifestNotFound
  | schemaErrors (errs : List String)
deriving DecidableEq

/-- Result of a successful load: the extracted config, the semantic warnings
printed along the way, and the filesystem after the directory side effect. -/
structure LoadOk where
  config : Config
  warnings : List String
  fs : FS

/-- The directory side effect of `load_project_config`: every declared
directory that does not yet exist is created (`mkdir(parents=True)`; the model
records the declared path itself). -/
def ensure_directories (fs : FS) (path : String) (dirs : List String) : FS :=
  dirs.foldl (fun acc subdir =>
    let dir_path := pathJoin path subdir
    if acc.pathExists dir_path then acc
    else { acc with dirs := dir_path :: acc.dirs }) fs

/-- Embeds `load_project_config`.  A missing `project.yml` is `manifestNotFound`
(the source prints a message and then crashes in `srsly.read_yaml`); a
non-empty schema error list is `sys.exit(1)`; semantic diagnostics are printed
but do not stop the load; every declared directory that does not yet exist is
then created.  The final `substitute_project_variables` interpolation pass
(delegated to the confection library, where the overrides are applied) is
modelled as the identity — no verified claim depends on substitution. -/
def load_project_config (fs : FS) (path : String) : Except LoadError LoadOk :=
  match dictGet (pathJoin path PROJECT_FILE) fs.docs with
  | none => .error .manifestNotFound
  | some doc =>
    let errors := validateProjectConfigSchema doc
    if errors.isEmpty then
      let warnings := validate_project_commands doc
      let fs' := ensure_directories fs path (rawDirectories doc)
      .ok { config := extractConfig doc, warnings := warnings, fs := fs' }
    else
      .error (.schemaErrors errors)

/-- Embeds `validate_subcommand`: `msg.fail(..., exits=1)` when nothing is
defined or when the name resolves to neither a command nor a workflow. -/
def validate_subcommand (commands workflows : List String) (subcommand : String) :
    Except Unit Unit :=
  if commands.isEmpty && workflows.isEmpty then .error ()
  else if !commands.contains subcommand && !workflows.contains subcommand then .error ()
  else .ok ()

/-! ## Override token parsing (`_parse_override`, `_parse_overrides`,
`parse_config_overrides`) -/

/-- A decoded override value: either a JSON literal or the raw string kept by
the fallback of `_parse_override`. -/
inductive OvValue where
  | json (v : RawVal)
  | raw (s : String)

/-- Digit-wise parse of a non-empty decimal digit run. -/
def parseNatDigits (acc : Nat) : List Char → Option Nat
  | [] => some acc
  | c :: cs =>
    if '0' ≤ c && c ≤ '9' then parseNatDigits (acc * 10 + (c.toNat - '0'.toNat)) cs
    else none

/-- Models `srsly.json_loads` on the scalar literals override values use:
`true`, `false`, `null` and (signed) integer literals decode; everything else
fails, which makes `_parse_override` keep the raw string.  Quoted strings,
arrays, objects, floats and the finer points of the JSON number grammar are
not modelled. -/
def json_loads (s : String) : Option RawVal :=
  if s = "true" then some (.boolean true)
  else if s = "false" then some (.boolean false)
  else if s = "null" then some .null
  else
    match s.data with
    | [] => none
    | '-' :: rest =>
      match rest with
      | [] => none
      | _ => (parseNatDigits 0 rest).map (fun n => .int (-(n : Int)))
    | cs => (parseNatDigits 0 cs).map (fun n => .int (n : Int))

/-- Embeds `_parse_override`: JSON decoding with a raw-string fallback. -/
def _parse_override (value : String) : OvValue :=
  match json_loads value with
  | some v => .json v
  | none => .raw value

/-- Python `str.startswith`. -/
def strStartsWith (s pre : String) : Bool := pre.data.isPrefixOf s.data

/-- Python `str.replace("--", "")`: drop every (non-overlapping, left-to-right)
occurrence of two consecutive dashes. -/
def removeDoubleDash : List Char → List Char
  | '-' :: '-' :: rest => removeDoubleDash rest
  | c :: rest => c :: removeDoubleDash rest
  | [] => []

/-- Python `str.replace("-", "_")`. -/
def dashToUnderscore (s : String) : String :=
  String.mk (s.data.map (fun c => if c = '-' then '_' else c))

/-- Python `str.split("=", 1)` on a string known to contain the separator. -/
def splitAtFirstChar (c : Char) : List Char → List Char × List Char
  | [] => ([], [])
  | x :: xs =>
    if x = c then ([], xs)
    else
      let r := splitAtFirstChar c xs
      (x :: r.1, r.2)

inductive OverrideError where
  | noSuchOption (opt : String)
  | topLevelSection
  | badName (opt : String)
deriving DecidableEq

/-- Embeds the token loop of `_parse_overrides`, accumulating the result dict.
A dotless key raises `NoSuchOption` on the CLI path and `msg.fail(..., exits=1)`
otherwise; a token without the leading dashes is an error; `--k=v` splits at
the first `=` and normalises dashes in the key; a valueless flag whose
successor token is absent or itself dash-prefixed decodes the literal string
`"true"`; otherwise the successor token is consumed as the value. -/
def _parse_overrides_go (is_cli : Bool) (result : List (String × OvValue)) :
    (toks : List String) → Except OverrideError (List (String × OvValue))
  | [] => .ok result
  | opt :: args =>
    if strStartsWith opt "--" then
      let opt' := String.mk (removeDoubleDash opt.data)
      if !opt'.data.contains '.' then
        .error (if is_cli then .noSuchOption opt else .topLevelSection)
      else if opt'.data.contains '=' then
        let pr := splitAtFirstChar '=' opt'.data
        let key := dashToUnderscore (String.mk pr.1)
        let value := String.mk pr.2
        _parse_overrides_go is_cli (dictInsert result key (_parse_override value)) args
      else
        match args with
        | [] => .ok (dictInsert result opt' (_parse_override "true"))
        | next :: rest =>
          if strStartsWith next "--" then
            _parse_overrides_go is_cli (dictInsert result opt' (_parse_override "true"))
              (next :: rest)
          else
            _parse_overrides_go is_cli (dictInsert result opt' (_parse_override next)) rest
    else .error (.badName opt)

/-- Embeds `_parse_overrides`. -/
def _parse_overrides (args : List String) (is_cli : Bool) :
    Except OverrideError (List (String × OvValue)) :=
  _parse_overrides_go is_cli [] args

/-- Embeds `parse_config_overrides`.  `env_tokens` stands for
`split_arg_string(os.environ.get("D_CONFIG_OVERRIDES", ""))` — the shell-word
splitting of the fixed environment variable is outside the model, the theorems
quantify over the resulting token list.  The merge of the two parsed dicts is
the literal `return ⟨**cli_overrides, **env_overrides⟩` of the source (with
braces), in which the bindings of `env_overrides` are assigned last. -/
def parse_config_overrides (args : List String) (env_tokens : List String) :
    Except OverrideError (List (String × OvValue)) := do
  let env_overrides ← _parse_overrides env_tokens false
  let cli_overrides ← _parse_overrides args true
  return dictMerge cli_overrides env_overrides

/-! ## Execution engine (`split_command`, `run_commands`, `working_dir`,
`project_run`)

Subprocess execution is modelled by an oracle: the spawned command line and
the current filesystem determine a new filesystem and the child's exit code.
A child process cannot change the orchestrator's working directory, which the
oracle's type reflects.  On a non-zero exit code `run_command` either calls
`sys.exit(returncode)` (`capture=False`) or raises a `SubprocessError`
carrying the captured output (`capture=True`); both abort the current run, so
both are modelled as the same `childFailed` outcome. -/

/-- Stands for `sys.executable`, the interpreter running the orchestrator;
the concrete value is irrelevant to every claim. -/
def sys_executable : String := "/usr/bin/python3"

/-- Accumulating loop of `split_command`: `cur` holds the characters of the
current word in reverse. -/
def split_command_go (cur : List Char) : List Char → List String
  | [] => if cur.isEmpty then [] else [String.mk cur.reverse]
  | c :: cs =>
    if c = ' ' then
      if cur.isEmpty then split_command_go [] cs
      else String.mk cur.reverse :: split_command_go [] cs
    else split_command_go (c :: cur) cs

/-- Models `split_command` (`shlex.split`) as whitespace splitting; shell
quoting is outside the model. -/
def split_command (command : String) : List String :=
  split_command_go [] command.data

/-- The interpreter-alias rewriting at the top of the `run_commands` loop. -/
def rewrite_interpreter (command : List String) : List String :=
  match command with
  | [] => []
  | c :: rest =>
    if c = "python" || c = "python3" then sys_executable :: rest
    else if c = "pip" || c = "pip3" then sys_executable :: "-m" :: "pip" :: rest
    else c :: rest

/-- The subprocess oracle: command line and filesystem in, filesystem and
exit code out. -/
abbrev ExecOracle := List String → FS → FS × Nat

inductive RunFailure where
  | outOfFuel
  | loadFailed (e : LoadError)
  | unknownSubcommand
  | missingDependency (dep : String)
  | childFailed (code : Nat)
deriving DecidableEq

/-- Observable execution events: a spawned child process, or a logged skip. -/
inductive Event where
  | spawned (cmdline : List String)
  | skipped (name : String)
deriving DecidableEq

/-- Embeds `run_commands`: each script line in order is split, has its
interpreter alias rewritten, and (unless `dry`) is spawned; a non-zero exit
aborts the loop with a `childFailed` outcome (via `sys.exit` or
`SubprocessError` according to `capture`, which does not change the outcome in
the model). -/
def run_commands (exec : ExecOracle) (commands : List String) (dry capture : Bool)
    (fs : FS) : FS × List Event × Except RunFailure Unit :=
  match commands with
  | [] => (fs, [], .ok ())
  | c :: rest =>
    let command := rewrite_interpreter (split_command c)
    if dry then run_commands exec rest dry capture fs
    else
      let (fs1, code) := exec command fs
      if code = 0 then
        let (fs2, evs, r) := run_commands exec rest dry capture fs1
        (fs2, .spawned command :: evs, r)
      else
        (fs1, [.spawned command], .error (.childFailed code))

/-- The mutable state of a run: the filesystem and the orchestrator's current
working directory. -/
structure RunState where
  fs : FS
  cwd : String

/-- Embeds the `working_dir` context manager: save `Path.cwd()`, `os.chdir` to
the target (`resolve()` is modelled as the identity), run the body, and — as
the `finally` block — restore the saved directory on every exit path (the
body's outcome, success or failure, travels inside `α`). -/
def working_dir (path : String) (st : RunState) (body : RunState → RunState × α) :
    RunState × α :=
  let prev_cwd := st.cwd
  let current := path
  let (st', a) := body { st with cwd := current }
  ({ st' with cwd := prev_cwd }, a)

/-- The `working_dir`-scoped body of a single-command run: decide
skip-vs-rerun, execute the script, and update the lockfile after a successful
non-dry run. -/
def run_checked (exec : ExecOracle) (st : RunState) (project_dir : String) (cmd : Cmd)
    (force dry capture : Bool) : RunState × List Event × Except RunFailure Unit :=
  let (stOut, pr) := working_dir project_dir st (fun stIn =>
    let current_dir := project_dir
    let rerun := check_rerun stIn.fs current_dir cmd
    if !rerun && !force then
      (stIn, ([Event.skipped cmd.name], Except.ok ()))
    else
      let (fs', evs, r) := run_commands exec cmd.script dry capture stIn.fs
      match r with
      | .ok _ =>
        if dry then ({ stIn with fs := fs' }, (evs, Except.ok ()))
        else ({ stIn with fs := update_lockfile fs' current_dir cmd }, (evs, Except.ok ()))
      | .error e => ({ stIn with fs := fs' }, (evs, Except.error e)))
  (stOut, pr.1, pr.2)

mutual

/-- Embeds `project_run`.  The recursion of workflows over their steps is not
guarded in the source (a workflow step may name a workflow, even itself), so
the embedding carries fuel; `outOfFuel` marks runs whose recursion depth the
fuel does not cover.  The requirement check step only prints warnings and is
omitted.  Override parsing and interpolation are outside this function in the
source as well. -/
def project_run (exec : ExecOracle) (fuel : Nat) (st : RunState)
    (project_dir subcommand : String) (force dry capture : Bool) :
    RunState × List Event × Except RunFailure Unit :=
  match fuel with
  | 0 => (st, [], .error .outOfFuel)
  | fuel' + 1 =>
    match load_project_config st.fs project_dir with
    | .error e => (st, [], .error (.loadFailed e))
    | .ok res =>
      let st1 : RunState := { st with fs := res.fs }
      let commands := res.config.commands.foldl (fun acc c => dictInsert acc c.name c) []
      let workflows := res.config.workflows
      match validate_subcommand (commands.map Prod.fst) (workflows.map Prod.fst)
          subcommand with
      | .error _ => (st1, [], .error .unknownSubcommand)
      | .ok _ =>
        match dictGet subcommand workflows with
        | some steps => run_steps exec fuel' st1 project_dir steps force dry capture
        | none =>
          match dictGet subcommand commands with
          | none => (st1, [], .error .unknownSubcommand)
          | some cmd =>
            match cmd.deps.find? (fun dep => !st1.fs.pathExists (pathJoin project_dir dep))
              with
            | some dep =>
              if dry then run_checked exec st1 project_dir cmd force dry capture
              else (st1, [], .error (.missingDependency dep))
            | none => run_checked exec st1 project_dir cmd force dry capture
termination_by (fuel, 0)
decreasing_by exact Prod.Lex.left _ _ (Nat.lt_succ_self fuel')

/-- The sequential loop over a workflow's steps: each step is a full recursive
`project_run` with identical parameters; the first failing step aborts the
loop and its failure propagates. -/
def run_steps (exec : ExecOracle) (fuel : Nat) (st : RunState) (project_dir : String)
    (steps : List String) (force dry capture : Bool) :
    RunState × List Event × Except RunFailure Unit :=
  match steps with
  | [] => (st, [], .ok ())
  | s :: rest =>
    match project_run exec fuel st project_dir s force dry capture with
    | (st', evs, .ok _) =>
      let (st'', evs', r) := run_steps exec fuel st' project_dir rest force dry capture
      (st'', evs ++ evs', r)
    | (st', evs, .error e) => (st', evs, .error e)
termination_by (fuel, steps.length + 1)
decreasing_by
  all_goals refine Prod.Lex.right _ ?_
  all_goals simp_arith

end

/-! ## Claim C1 — the rerun decision -/

/-- Case analysis of `check_rerun`, shared by several claims. -/
theorem check_rerun_eq_true_iff (fs : FS) (project_dir : String) (command : Cmd) :
    check_rerun fs project_dir command = true ↔
      (command.no_skip = true
        ∨ dictGet (pathJoin project_dir PROJECT_LOCK) fs.locks = none
        ∨ (∃ data, dictGet (pathJoin project_dir PROJECT_LOCK) fs.locks = some data
            ∧ dictGet command.name data = none)
        ∨ (∃ data entry, dictGet (pathJoin project_dir PROJECT_LOCK) fs.locks = some data
            ∧ dictGet command.name data = some entry ∧ entry.outs = [])
        ∨ (∃ data entry, dictGet (pathJoin project_dir PROJECT_LOCK) fs.locks = some data
            ∧ dictGet command.name data = some entry
            ∧ get_hash (get_lock_entry fs project_dir command) ≠ get_hash entry)) := by
  by_cases hns : command.no_skip = true
  · simp [check_rerun, hns]
  · cases hlock : dictGet (pathJoin project_dir PROJECT_LOCK) fs.locks with
    | none => simp [check_rerun, hns, hlock]
    | some data =>
      cases hentry : dictGet command.name data with
      | none => simp [check_rerun, hns, hlock, hentry]
      | some entry =>
        by_cases houts : entry.outs = []
        · simp [check_rerun, hns, hlock, hentry, houts]
        · simp [check_rerun, hns, hlock, hentry, houts, List.isEmpty_iff]

/-- C1: for every project directory and command, `check_rerun` returns true if
and only if the command has `no_skip` set, or no lockfile exists on disk, or
the lockfile has no entry under the command's name, or the stored entry's
`outs` list is empty, or the canonical digest (stable key ordering, then hash
of the canonical encoding) of a freshly computed lock entry differs from the
canonical digest of the stored entry; otherwise it returns false. -/
theorem check_rerun_iff (fs : FS) (project_dir : String) (command : Cmd) :
    check_rerun fs project_dir command = true ↔
      (command.no_skip = true
        ∨ dictGet (pathJoin project_dir PROJECT_LOCK) fs.locks = none
        ∨ (∃ data, dictGet (pathJoin project_dir PROJECT_LOCK) fs.locks = some data
            ∧ dictGet command.name data = none)
        ∨ (∃ data entry, dictGet (pathJoin project_dir PROJECT_LOCK) fs.locks = some data
            ∧ dictGet command.name data = some entry ∧ entry.outs = [])
        ∨ (∃ data entry, dictGet (pathJoin project_dir PROJECT_LOCK) fs.locks = some data
            ∧ dictGet command.name data = some entry
            ∧ get_hash (get_lock_entry fs project_dir command) ≠ get_hash entry)) :=
  check_rerun_eq_true_iff fs project_dir command

/-! ## Claim C5 — commands with no outputs -/

/-- A command with an empty `outputs` list but a non-empty `outputs_no_cache`
list, used to exhibit the gap in the claim. -/
def c5cmd : Cmd :=
  { name := "c", script := ["touch f"], outputs := [], outputs_no_cache := ["f"] }

/-- A filesystem whose lockfile already records `c5cmd` faithfully. -/
def c5fs : FS :=
  { files := [("p/f", "x")]
    locks := [("p/project.lock",
      [("c", { cmd := "project run c", script := ["touch f"], deps := []
               outs := [{ path := "f", md5 := some "x" }] })])] }

/-- C5 counterexample: a command whose `outputs` list is empty is nevertheless
skipped (`check_rerun` returns false) when its `outputs_no_cache` list is
non-empty and the stored entry matches the fresh one — the guard in the source
tests the stored entry's `outs` list (`outputs` plus `outputs_no_cache`), not
the command's `outputs` list. -/
theorem c5_counterexample :
    c5cmd.outputs = [] ∧ check_rerun c5fs "p" c5cmd = false :=
  ⟨rfl, by rfl⟩

/-- C5 amended: for every command whose `outputs` and `outputs_no_cache` lists
are both empty, the rerun decision returns true, regardless of the content of
the lockfile. -/
theorem check_rerun_of_no_outs (fs : FS) (project_dir : String) (command : Cmd)
    (h1 : command.outputs = []) (h2 : command.outputs_no_cache = []) :
    check_rerun fs project_dir command = true := by
  rw [check_rerun_eq_true_iff]
  cases hlock : dictGet (pathJoin project_dir PROJECT_LOCK) fs.locks with
  | none => exact Or.inr (Or.inl rfl)
  | some data =>
    cases hentry : dictGet command.name data with
    | none => exact Or.inr (Or.inr (Or.inl ⟨data, rfl, hentry⟩))
    | some entry =>
      by_cases houts : entry.outs = []
      · exact Or.inr (Or.inr (Or.inr (Or.inl ⟨data, entry, rfl, hentry, houts⟩)))
      · refine Or.inr (Or.inr (Or.inr (Or.inr ⟨data, entry, rfl, hentry, ?_⟩)))
        intro hc
        apply houts
        have hfresh : (get_lock_entry fs project_dir command).outs = [] := by
          simp [get_lock_entry, get_fileinfo, h1, h2]
        have heq : get_lock_entry fs project_dir command = entry :=
          congrArg Digest.canon hc
        rw [← heq, hfresh]

/-- C5 amended, witness. -/
theorem check_rerun_of_no_outs_witness :
    check_rerun { files := [] } "p" { name := "c" } = true :=
  check_rerun_of_no_outs { files := [] } "p" { name := "c" } rfl rfl

/-! ## Claim C6 — the shape of a lock entry -/

/-- C6 counterexample: the `cmd` field of a freshly built lock entry is not
the string `"run "` followed by the command's name. -/
theorem c6_counterexample :
    (get_lock_entry { files := [] } "p" { name := "x" }).cmd ≠ "run " ++ "x" := by
  decide

/-- C6 amended: for every command, the lock entry built by `get_lock_entry`
has `cmd` equal to `"project run "` followed by the command's name, `script`
equal to a copy of the command's script, `deps` equal to the list of
path/checksum pairs over `command.deps` in order, and `outs` equal to the same
construction over `command.outputs` followed by `command.outputs_no_cache`, in
that concatenation order. -/
theorem get_lock_entry_shape (fs : FS) (project_dir : String) (command : Cmd) :
    (get_lock_entry fs project_dir command).cmd = "project run " ++ command.name
    ∧ (get_lock_entry fs project_dir command).script = command.script
    ∧ (get_lock_entry fs project_dir command).deps = command.deps.map (fun path =>
        { path := path
          md5 := if fs.pathExists (pathJoin project_dir path) then
                   get_checksum fs (pathJoin project_dir path) else none })
    ∧ (get_lock_entry fs project_dir command).outs =
        command.outputs.map (fun path =>
          { path := path
            md5 := if fs.pathExists (pathJoin project_dir path) then
                     get_checksum fs (pathJoin project_dir path) else none }) ++
        command.outputs_no_cache.map (fun path =>
          { path := path
            md5 := if fs.pathExists (pathJoin project_dir path) then
                     get_checksum fs (pathJoin project_dir path) else none }) :=
  ⟨rfl, rfl, rfl, rfl⟩

/-! ## Claim C8 — nonexistent paths yield a null digest -/

/-- C8: for every path that does not exist on the filesystem, the lock entry
records digest `none` for it (rather than failing): such a `deps` or `outs`
member carries `md5 = none`. -/
theorem missing_path_null_digest (fs : FS) (project_dir : String) (command : Cmd)
    (p : String) (hne : fs.pathExists (pathJoin project_dir p) = false) :
    (p ∈ command.deps →
      (⟨p, none⟩ : FileInfo) ∈ (get_lock_entry fs project_dir command).deps)
    ∧ (p ∈ command.outputs ++ command.outputs_no_cache →
      (⟨p, none⟩ : FileInfo) ∈ (get_lock_entry fs project_dir command).outs) := by
  constructor
  · intro hp
    show (⟨p, none⟩ : FileInfo) ∈ get_fileinfo fs project_dir command.deps
    unfold get_fileinfo
    refine List.mem_map.mpr ⟨p, hp, ?_⟩
    simp [hne]
  · intro hp
    show (⟨p, none⟩ : FileInfo) ∈
      get_fileinfo fs project_dir command.outputs ++
        get_fileinfo fs project_dir command.outputs_no_cache
    rcases List.mem_append.mp hp with hp | hp
    · refine List.mem_append.mpr (Or.inl ?_)
      unfold get_fileinfo
      refine List.mem_map.mpr ⟨p, hp, ?_⟩
      simp [hne]
    · refine List.mem_append.mpr (Or.inr ?_)
      unfold get_fileinfo
      refine List.mem_map.mpr ⟨p, hp, ?_⟩
      simp [hne]

/-- C8, witness. -/
theorem missing_path_null_digest_witness :
    (⟨"d", none⟩ : FileInfo) ∈
      (get_lock_entry { files := [] } "p" { name := "c", deps := ["d"] }).deps :=
  (missing_path_null_digest { files := [] } "p" { name := "c", deps := ["d"] } "d" rfl).1
    (by decide)

/-! ## Claim C10 — the scoped working-directory change -/

/-- The `finally` block of `working_dir` restores the directory saved at
entry, whatever the body did and however it exited. -/
theorem working_dir_cwd (path : String) (st : RunState)
    (body : RunState → RunState × α) : (working_dir path st body).1.cwd = st.cwd := by
  unfold working_dir
  rcases body { st with cwd := path } with ⟨st', a⟩
  rfl

/-- Packaging variant of `working_dir_cwd` for the result-triple shape used
in `run_checked`. -/
theorem working_dir_pack_cwd (path : String) (st : RunState)
    (body : RunState → RunState × (List Event × Except RunFailure Unit)) :
    (match working_dir path st body with
      | (stOut, pr) => (stOut, pr.1, pr.2)).1.cwd = st.cwd := by
  rcases hw : working_dir path st body with ⟨stOut, pr⟩
  have h := working_dir_cwd path st body
  rw [hw] at h
  simpa using h

/-- A single-command run leaves the working directory as it found it. -/
theorem run_checked_cwd (exec : ExecOracle) (st : RunState) (project_dir : String)
    (cmd : Cmd) (force dry capture : Bool) :
    (run_checked exec st project_dir cmd force dry capture).1.cwd = st.cwd := by
  unfold run_checked
  exact working_dir_pack_cwd project_dir st _

/-- Both engine entry points preserve the working directory in effect at
entry, at every fuel level. -/
theorem engine_cwd (fuel : Nat) :
    (∀ exec st project_dir subcommand force dry capture,
      (project_run exec fuel st project_dir subcommand force dry capture).1.cwd = st.cwd)
    ∧ (∀ exec st project_dir steps force dry capture,
      (run_steps exec fuel st project_dir steps force dry capture).1.cwd = st.cwd) := by
  induction fuel with
  | zero =>
    constructor
    · intro exec st project_dir subcommand force dry capture
      simp [project_run]
    · intro exec st project_dir steps force dry capture
      induction steps generalizing st with
      | nil => simp [run_steps]
      | cons s rest ih =>
        simp [run_steps, project_run]
  | succ fuel ih =>
    have hrun : ∀ exec st project_dir subcommand force dry capture,
        (project_run exec (fuel + 1) st project_dir subcommand force dry capture).1.cwd
          = st.cwd := by
      intro exec st project_dir subcommand force dry capture
      rw [project_run]
      cases load_project_config st.fs project_dir with
      | error e => rfl
      | ok res =>
        simp only
        cases validate_subcommand
            ((res.config.commands.foldl (fun acc c => dictInsert acc c.name c) []).map
              Prod.fst)
            (res.config.workflows.map Prod.fst) subcommand with
        | error e => rfl
        | ok u =>
          simp only
          cases dictGet subcommand res.config.workflows with
          | some steps => exact ih.2 exec _ project_dir steps force dry capture
          | none =>
            simp only
            cases dictGet subcommand
                (res.config.commands.foldl (fun acc c => dictInsert acc c.name c) []) with
            | none => rfl
            | some cmd =>
              simp only
              cases cmd.deps.find?
                  (fun dep => !FS.pathExists res.fs (pathJoin project_dir dep)) with
              | some dep =>
                simp only
                cases dry with
                | true =>
                  simpa using run_checked_cwd exec _ project_dir cmd force true capture
                | false => rfl
              | none => exact run_checked_cwd exec _ project_dir cmd force dry capture
    constructor
    · exact hrun
    · intro exec st project_dir steps force dry capture
      induction steps generalizing st with
      | nil => simp [run_steps]
      | cons s rest ihs =>
        rw [run_steps]
        rcases hp : project_run exec (fuel + 1) st project_dir s force dry capture
          with ⟨st', evs, r⟩
        have hcwd : st'.cwd = st.cwd := by
          have := hrun exec st project_dir s force dry capture
          rw [hp] at this
          exact this
        cases r with
        | ok u =>
          simp only
          rcases hr : run_steps exec (fuel + 1) st' project_dir rest force dry capture
            with ⟨st'', evs', r'⟩
          have : st''.cwd = st'.cwd := by
            have := ihs st'
            rw [hr] at this
            exact this
          simp [this, hcwd]
        | error e => simpa using hcwd

/-- C10: for every entry into the scoped working-directory change, the
working directory in effect at entry is restored on every exit path — success,
failure, or nested recursive re-entry — so recursive workflow execution never
leaks a stale working directory to a sibling step: `working_dir` restores the
saved directory around any body, and a whole (recursive) `project_run` leaves
the working directory unchanged. -/
theorem working_dir_always_restored :
    (∀ (α : Type) (path : String) (st : RunState) (body : RunState → RunState × α),
      (working_dir path st body).1.cwd = st.cwd)
    ∧ (∀ exec fuel st project_dir subcommand force dry capture,
      (project_run exec fuel st project_dir subcommand force dry capture).1.cwd
        = st.cwd) :=
  ⟨fun _ path st body => working_dir_cwd path st body,
   fun exec fuel st project_dir subcommand force dry capture =>
     (engine_cwd fuel).1 exec st project_dir subcommand force dry capture⟩

/-! ## Claim C4 — sequential workflows and failure propagation -/

theorem dictGet_mem_keys (l : List (String × α)) (k : String) (v : α)
    (h : dictGet k l = some v) : k ∈ l.map Prod.fst := by
  induction l with
  | nil => simp [dictGet] at h
  | cons e rest ih =>
    obtain ⟨k₁, v₁⟩ := e
    by_cases hk : k₁ = k
    · simp [hk]
    · simp only [dictGet, if_neg hk] at h
      simp [ih h]

/-- Running the steps `pre ++ A :: post` when `pre` succeeds and `A` fails
produces exactly the events of `pre` followed by the events of `A`, the state
`A` failed in, and the failure of `A`: no step after `A` runs. -/
theorem run_steps_failure (exec : ExecOracle) (fuel : Nat) (project_dir : String)
    (force dry capture : Bool) :
    ∀ (pre : List String) (st stP : RunState) (evsP : List Event),
      run_steps exec fuel st project_dir pre force dry capture = (stP, evsP, .ok ())
      → ∀ (A : String) (post : List String) (stA : RunState) (evsA : List Event)
          (e : RunFailure),
        project_run exec fuel stP project_dir A force dry capture = (stA, evsA, .error e)
        → run_steps exec fuel st project_dir (pre ++ A :: post) force dry capture
            = (stA, evsP ++ evsA, .error e) := by
  intro pre
  induction pre with
  | nil =>
    intro st stP evsP hpre A post stA evsA e hA
    rw [run_steps] at hpre
    injection hpre with h1 h2
    injection h2 with h2 h3
    subst h1; subst h2
    simp only [List.nil_append]
    rw [run_steps, hA]
  | cons s pre ih =>
    intro st stP evsP hpre A post stA evsA e hA
    rw [run_steps] at hpre
    rcases hp : project_run exec fuel st project_dir s force dry capture with ⟨st₁, evs₁, r₁⟩
    rw [hp] at hpre
    cases r₁ with
    | error e₁ => simp at hpre
    | ok u =>
      dsimp only at hpre
      rcases hr : run_steps exec fuel st₁ project_dir pre force dry capture
        with ⟨st₂, evs₂, r₂⟩
      rw [hr] at hpre
      dsimp only at hpre
      injection hpre with h1 h2
      injection h2 with h2 h3
      subst h1; subst h2; subst h3
      have hrec := ih st₁ st₂ evs₂ hr A post stA evsA e hA
      show run_steps exec fuel st project_dir (s :: (pre ++ A :: post)) force dry capture
        = (stA, (evs₁ ++ evs₂) ++ evsA, .error e)
      rw [run_steps, hp]
      dsimp only
      rw [hrec]
      simp [List.append_assoc]

/-- C4: for every workflow run as an ordered list of steps, the steps execute
strictly sequentially in declared order, and if any step fails with a non-zero
outcome, no later step of that workflow ever executes and the failure
propagates to the caller: when the manifest loads with workflow `W` mapped to
`pre ++ A :: post`, the steps of `pre` succeed, and step `A` fails, then
running `W` produces exactly the events of `pre` and `A` (so no step of `post`
— in particular `B` in `W = [A, B]` — ever executes) and ends in the failure
of `A`. -/
theorem workflow_failure_aborts (exec : ExecOracle) (fuel : Nat) (st stP stA : RunState)
    (project_dir W A : String) (pre post : List String) (force dry capture : Bool)
    (res : LoadOk) (evsP evsA : List Event) (e : RunFailure)
    (hload : load_project_config st.fs project_dir = .ok res)
    (hW : dictGet W res.config.workflows = some (pre ++ A :: post))
    (hpre : run_steps exec fuel { st with fs := res.fs } project_dir pre force dry capture
              = (stP, evsP, .ok ()))
    (hA : project_run exec fuel stP project_dir A force dry capture
              = (stA, evsA, .error e)) :
    project_run exec (fuel + 1) st project_dir W force dry capture
      = (stA, evsP ++ evsA, .error e) := by
  have hmem : W ∈ res.config.workflows.map Prod.fst := dictGet_mem_keys _ _ _ hW
  have h1 : (res.config.workflows.map Prod.fst).isEmpty = false := by
    cases hwf : res.config.workflows.map Prod.fst with
    | nil => rw [hwf] at hmem; simp at hmem
    | cons a l => rfl
  have h2 : (res.config.workflows.map Prod.fst).contains W = true :=
    List.elem_eq_true_of_mem hmem
  have hval : validate_subcommand
      ((res.config.commands.foldl (fun acc c => dictInsert acc c.name c) []).map Prod.fst)
      (res.config.workflows.map Prod.fst) W = .ok () := by
    unfold validate_subcommand
    rw [h1, h2]
    simp
  rw [project_run]
  rw [hload]
  simp only [hval, hW]
  exact run_steps_failure exec fuel project_dir force dry capture pre _ stP evsP hpre
    A post stA evsA e hA

/-- Manifest for the C4 witness: commands `a` and `b`, workflow `all = [a, b]`. -/
def c4doc : RawDict :=
  [("commands", .list [
      .dict [("name", .str "a"), ("script", .list [.str "runa"]),
             ("outputs", .list [.str "outa"])],
      .dict [("name", .str "b"), ("script", .list [.str "runb"])]]),
   ("workflows", .dict [("all", .list [.str "a", .str "b"])])]

def c4fs : FS := { docs := [("p/project.yml", c4doc)] }

/-- Oracle for the C4 witness: the script line of `a` exits with status 1,
everything else succeeds. -/
def c4exec : ExecOracle := fun cmd fs => (fs, if cmd = ["runa"] then 1 else 0)

/-- C4, witness: in the concrete two-step workflow `all = [a, b]` whose first
step fails, running the workflow spawns only the script of `a` and propagates
its failure — `b` never executes. -/
theorem workflow_failure_aborts_witness :
    project_run c4exec 2 ⟨c4fs, "/"⟩ "p" "all" false false false
      = (⟨c4fs, "/"⟩, [.spawned ["runa"]], .error (.childFailed 1)) := by
  have hA : project_run c4exec 1 ⟨c4fs, "/"⟩ "p" "a" false false false
      = (⟨c4fs, "/"⟩, [.spawned ["runa"]], .error (.childFailed 1)) := by
    simp [project_run, run_steps, run_checked, load_project_config, working_dir,
      run_commands, check_rerun, split_command, split_command_go, rewrite_interpreter,
      ensure_directories, c4exec, c4fs, c4doc, validate_subcommand, validateProjectConfigSchema,
      validateProjectConfigCommand, validateStrListField, extractConfig, rawCommands,
      rawWorkflows, rawDirectories, rawCheckRequirements, cmdOfRaw, asStrList, dictGet,
      dictInsert, pathJoin, PROJECT_FILE, PROJECT_LOCK, get_lock_entry, get_fileinfo,
      get_hash, update_lockfile, commandFields, isStrList, FS.pathExists, FS.isFile,
      FS.isDir]
  have h := workflow_failure_aborts c4exec 1 ⟨c4fs, "/"⟩ ⟨c4fs, "/"⟩ ⟨c4fs, "/"⟩
      "p" "all" "a" [] ["b"] false false false
      ⟨extractConfig c4doc, [], c4fs⟩ [] [.spawned ["runa"]] (.childFailed 1)
      rfl rfl (by rw [run_steps]) hA
  simpa using h

/-! ## Claim C2 — override precedence on key collision -/

theorem dictInsert_mem_keys (d : List (String × α)) (k : String) (v : α) (x : String) :
    x ∈ (dictInsert d k v).map Prod.fst ↔ x ∈ d.map Prod.fst ∨ x = k := by
  induction d with
  | nil => simp [dictInsert]
  | cons e rest ih =>
    obtain ⟨k₁, v₁⟩ := e
    by_cases hk : k₁ = k
    · subst hk
      simp only [dictInsert, if_pos rfl]
      constructor
      · intro hx
        rcases List.mem_cons.mp hx with hx | hx
        · exact Or.inr hx
        · exact Or.inl (List.mem_cons.mpr (Or.inr hx))
      · intro hx
        rcases hx with hx | hx
        · rcases List.mem_cons.mp hx with hx | hx
          · exact List.mem_cons.mpr (Or.inl hx)
          · exact List.mem_cons.mpr (Or.inr hx)
        · exact List.mem_cons.mpr (Or.inl hx)
    · simp only [dictInsert, if_neg hk, List.map_cons, List.mem_cons, ih]
      tauto

theorem dictInsert_keys_nodup (d : List (String × α)) (k : String) (v : α)
    (h : (d.map Prod.fst).Nodup) : ((dictInsert d k v).map Prod.fst).Nodup := by
  induction d with
  | nil => simp [dictInsert]
  | cons e rest ih =>
    obtain ⟨k₁, v₁⟩ := e
    simp only [List.map_cons, List.nodup_cons] at h
    by_cases hk : k₁ = k
    · subst hk
      simpa [dictInsert] using h
    · simp only [dictInsert, if_neg hk, List.map_cons, List.nodup_cons]
      refine ⟨?_, ih h.2⟩
      intro hx
      rcases (dictInsert_mem_keys rest k v k₁).mp hx with hx | hx
      · exact h.1 hx
      · exact hk hx

/-- Every dict produced by the override-token loop has duplicate-free keys. -/
theorem parse_go_keys_nodup (is_cli : Bool) (acc : List (String × OvValue))
    (toks : List String) :
    ∀ res, (acc.map Prod.fst).Nodup →
      _parse_overrides_go is_cli acc toks = .ok res → (res.map Prod.fst).Nodup := by
  induction acc, toks using _parse_overrides_go.induct with
  | is_cli => exact is_cli
  | case1 result =>
    intro res hacc hok
    rw [_parse_overrides_go] at hok
    injection hok with h
    exact h ▸ hacc
  | case2 result next rest hstart op hdot =>
    intro res hacc hok
    simp only [op] at hdot
    rw [_parse_overrides_go, if_pos hstart] at hok
    dsimp only at hok
    rw [if_pos hdot] at hok
    exact Except.noConfusion hok
  | case3 result next rest hstart op hdot heq pr key value ih =>
    intro res hacc hok
    simp only [op] at hdot heq
    rw [_parse_overrides_go, if_pos hstart] at hok
    dsimp only at hok
    rw [if_neg hdot, if_pos heq] at hok
    exact ih res (dictInsert_keys_nodup _ _ _ hacc) hok
  | case4 result next hstart op hdot heq =>
    intro res hacc hok
    simp only [op] at hdot heq
    rw [_parse_overrides_go, if_pos hstart] at hok
    dsimp only at hok
    rw [if_neg hdot, if_neg heq] at hok
    injection hok with h
    exact h ▸ dictInsert_keys_nodup _ _ _ hacc
  | case5 result next hstart op hdot heq next1 rest hstart1 ih =>
    intro res hacc hok
    simp only [op] at hdot heq
    rw [_parse_overrides_go, if_pos hstart] at hok
    dsimp only at hok
    rw [if_neg hdot, if_neg heq, if_pos hstart1] at hok
    exact ih res (dictInsert_keys_nodup _ _ _ hacc) hok
  | case6 result next hstart op hdot heq next1 rest hstart1 ih =>
    intro res hacc hok
    simp only [op] at hdot heq
    rw [_parse_overrides_go, if_pos hstart] at hok
    dsimp only at hok
    rw [if_neg hdot, if_neg heq, if_neg hstart1] at hok
    exact ih res (dictInsert_keys_nodup _ _ _ hacc) hok
  | case7 result next rest hstart =>
    intro res hacc hok
    rw [_parse_overrides_go, if_neg hstart] at hok
    exact Except.noConfusion hok

theorem parse_overrides_keys_nodup (args : List String) (is_cli : Bool)
    (res : List (String × OvValue)) (h : _parse_overrides args is_cli = .ok res) :
    (res.map Prod.fst).Nodup :=
  parse_go_keys_nodup is_cli [] args res List.nodup_nil h

/-- C2 counterexample: with the dotted key `a.b` supplied both on the CLI
(decoding to 1) and via the environment-variable tokens (decoding to 2), the
merged mapping holds the environment value, which differs from the CLI value:
in `return` of `parse_config_overrides` the `env_overrides` bindings are
assigned after the `cli_overrides` bindings, so the environment side wins on
key collision, not the CLI side. -/
theorem c2_counterexample :
    (parse_config_overrides ["--a.b", "1"] ["--a.b", "2"]).map (dictGet "a.b")
      = .ok (some (_parse_override "2"))
    ∧ _parse_override "2" ≠ _parse_override "1" := by
  refine ⟨rfl, ?_⟩
  intro h
  rw [show _parse_override "2" = OvValue.json (RawVal.int 2) from rfl,
      show _parse_override "1" = OvValue.json (RawVal.int 1) from rfl] at h
  simp at h

/-- C2 amended: for every dotted override key present in both the CLI token
list and the override environment variable token list, the merged override
mapping produced by `parse_config_overrides` maps that key to the value parsed
from the environment-variable tokens (environment entries win over CLI entries
on key collision). -/
theorem env_override_wins (cli_toks env_toks : List String)
    (cli env merged : List (String × OvValue)) (k : String) (v w : OvValue)
    (hcli : _parse_overrides cli_toks true = .ok cli)
    (henv : _parse_overrides env_toks false = .ok env)
    (hm : parse_config_overrides cli_toks env_toks = .ok merged)
    (hkc : dictGet k cli = some w)
    (hk : dictGet k env = some v) :
    dictGet k merged = some v := by
  have hnd := parse_overrides_keys_nodup env_toks false env henv
  unfold parse_config_overrides at hm
  rw [henv, hcli] at hm
  simp only [Except.bind, bind, pure, Except.pure] at hm
  injection hm with hm
  rw [← hm]
  exact dictGet_merge_of_mem cli env k v hnd hk

/-- C2 amended, witness. -/
theorem env_override_wins_witness :
    dictGet "x.y" [("x.y", OvValue.json (RawVal.int 2))]
      = some (OvValue.json (RawVal.int 2)) :=
  env_override_wins ["--x.y", "1"] ["--x.y", "2"]
    [("x.y", OvValue.json (RawVal.int 1))] [("x.y", OvValue.json (RawVal.int 2))]
    [("x.y", OvValue.json (RawVal.int 2))] "x.y"
    (OvValue.json (RawVal.int 2)) (OvValue.json (RawVal.int 1))
    rfl rfl rfl rfl rfl

/-! ## Claim C3 — strictness of schema validation -/

/-- Manifest whose only field is an unrecognised top-level key. -/
def c3doc : RawDict := [("frobnicate", RawVal.str "x")]

def c3fs : FS := { docs := [("p/project.yml", c3doc)] }

/-- C3 counterexample: a manifest containing the field name `frobnicate`,
outside the recognised top-level set, passes schema validation with no errors
and loads successfully — unrecognised top-level keys are not rejected, because
`ProjectConfigSchema` (unlike `ProjectConfigCommand`) does not set
`extra = "forbid"` and pydantic then ignores unknown fields. -/
theorem c3_counterexample :
    ("frobnicate" ∉ topLevelFields)
    ∧ validateProjectConfigSchema c3doc = []
    ∧ load_project_config c3fs "p"
        = .ok { config := extractConfig c3doc, warnings := [], fs := c3fs } :=
  ⟨by decide, rfl, rfl⟩

/-- An unrecognised field inside a command dict always contributes its
`extra fields not permitted` error (`extra = "forbid"`). -/
theorem mem_validateCommand_extra (kvs : RawDict) (k : String) (v : RawVal)
    (hm : (k, v) ∈ kvs) (hk : k ∉ commandFields) :
    (k ++ ": extra fields not permitted") ∈ validateProjectConfigCommand kvs := by
  have hf : (k, v) ∈ kvs.filter (fun e => e.1 ∉ commandFields) :=
    List.mem_filter.mpr ⟨hm, by simpa using hk⟩
  have hmm : (k ++ ": extra fields not permitted")
      ∈ (kvs.filter (fun e => e.1 ∉ commandFields)).map
          (fun e => e.1 ++ ": extra fields not permitted") :=
    List.mem_map.mpr ⟨(k, v), hf, rfl⟩
  unfold validateProjectConfigCommand
  simp only [List.mem_append]
  tauto

/-- C3 amended: unrecognised field names inside a command are rejected — the
document fails schema validation and `load_project_config` aborts with the
schema errors; unrecognised top-level field names are ignored — adding one to
a document does not change the validation outcome. -/
theorem schema_unknown_fields (doc : RawDict) (k : String) (v : RawVal) :
    ((∀ (xs : List RawVal) (kvs : RawDict),
        dictGet "commands" doc = some (.list xs) → RawVal.dict kvs ∈ xs →
        (k, v) ∈ kvs → k ∉ commandFields →
        validateProjectConfigSchema doc ≠ []
        ∧ ∀ (fs : FS) (path : String),
            dictGet (pathJoin path PROJECT_FILE) fs.docs = some doc →
            load_project_config fs path
              = .error (.schemaErrors (validateProjectConfigSchema doc)))
    ∧ (k ∉ topLevelFields →
        validateProjectConfigSchema ((k, v) :: doc) = validateProjectConfigSchema doc)) := by
  constructor
  · intro xs kvs hc hxs hkv hk
    have hval : validateProjectConfigSchema doc ≠ [] := by
      intro h
      have he : (k ++ ": extra fields not permitted") ∈ validateProjectConfigSchema doc := by
        have hseg : (k ++ ": extra fields not permitted") ∈ (xs.map (fun w =>
            match w with
            | RawVal.dict kvs => validateProjectConfigCommand kvs
            | _ => ["commands: value is not a valid dict"])).flatten :=
          List.mem_flatten.mpr ⟨validateProjectConfigCommand kvs,
            List.mem_map.mpr ⟨RawVal.dict kvs, hxs, rfl⟩,
            mem_validateCommand_extra kvs k v hkv hk⟩
        unfold validateProjectConfigSchema
        rw [hc]
        simp only [List.mem_append]
        tauto
      rw [h] at he
      exact List.not_mem_nil _ he
    refine ⟨hval, ?_⟩
    intro fs path hdoc
    have hne : ¬ (validateProjectConfigSchema doc).isEmpty = true := by
      simpa [List.isEmpty_iff] using hval
    unfold load_project_config
    rw [hdoc]
    dsimp only
    rw [if_neg hne]
  · intro hk
    have h6 : ∀ f, f ∈ topLevelFields → dictGet f ((k, v) :: doc) = dictGet f doc := by
      intro f hf
      have : k ≠ f := fun e => hk (e ▸ hf)
      simp [dictGet, this]
    unfold validateProjectConfigSchema
    rw [h6 "vars" (by decide), h6 "env" (by decide), h6 "workflows" (by decide),
        h6 "commands" (by decide), h6 "title" (by decide), h6 "description" (by decide)]

/-- Manifest for the C3 witness: a command carrying the unrecognised field
`bogus`. -/
def c3wdoc : RawDict :=
  [("commands", RawVal.list [RawVal.dict
      [("name", RawVal.str "a"), ("bogus", RawVal.str "1")]])]

/-- C3 amended, witness. -/
theorem schema_unknown_fields_witness :
    validateProjectConfigSchema c3wdoc ≠ []
    ∧ validateProjectConfigSchema (("frobnicate", RawVal.str "x") :: c3wdoc)
        = validateProjectConfigSchema c3wdoc :=
  ⟨((schema_unknown_fields c3wdoc "bogus" (RawVal.str "1")).1
      [RawVal.dict [("name", RawVal.str "a"), ("bogus", RawVal.str "1")]]
      [("name", RawVal.str "a"), ("bogus", RawVal.str "1")]
      rfl (List.Mem.head _) (List.Mem.tail _ (List.Mem.head _)) (by decide)).1,
   (schema_unknown_fields c3wdoc "frobnicate" (RawVal.str "x")).2 (by decide)⟩

/-! ## Claim C9 — semantic errors, schema errors and side effects of loading -/

/-- Manifest with a duplicate command name (a semantic error; the schema is
satisfied). -/
def c9doc : RawDict :=
  [("commands", RawVal.list [RawVal.dict [("name", RawVal.str "a")],
                             RawVal.dict [("name", RawVal.str "a")]])]

def c9fs : FS := { docs := [("p/project.yml", c9doc)] }

/-- C9 counterexample: a manifest with a duplicate command name produces a
semantic diagnostic, yet loading does not abort — `validate_project_commands`
only prints, so `load_project_config` still returns the loaded config. -/
theorem c9_counterexample :
    (validate_project_commands c9doc).isEmpty = false
    ∧ load_project_config c9fs "p"
        = .ok { config := extractConfig c9doc
                warnings := validate_project_commands c9doc
                fs := c9fs } :=
  ⟨rfl, rfl⟩

theorem ensure_cons (fs : FS) (path d : String) (rest : List String) :
    ensure_directories fs path (d :: rest)
      = ensure_directories
          (if fs.pathExists (pathJoin path d) then fs
           else { fs with dirs := pathJoin path d :: fs.dirs }) path rest := rfl

theorem pathExists_step (fs : FS) (path d p : String) (h : fs.pathExists p = true) :
    (if fs.pathExists (pathJoin path d) then fs
     else { fs with dirs := pathJoin path d :: fs.dirs }).pathExists p = true := by
  by_cases hd : fs.pathExists (pathJoin path d) = true
  · simpa [hd]
  · simp only [hd, if_false]
    simp only [FS.pathExists, FS.isFile, FS.isDir, Bool.or_eq_true] at h ⊢
    rcases h with h | h
    · exact Or.inl h
    · exact Or.inr (by simpa using Or.inr (by simpa using h))

theorem pathExists_ensure_mono (path : String) :
    ∀ (dirs : List String) (fs : FS) (p : String),
      fs.pathExists p = true → (ensure_directories fs path dirs).pathExists p = true := by
  intro dirs
  induction dirs with
  | nil => intro fs p h; exact h
  | cons d rest ih =>
    intro fs p h
    rw [ensure_cons]
    exact ih _ p (pathExists_step fs path d p h)

theorem ensure_all_exist (path : String) :
    ∀ (dirs : List String) (fs : FS) (d : String), d ∈ dirs →
      (ensure_directories fs path dirs).pathExists (pathJoin path d) = true := by
  intro dirs
  induction dirs with
  | nil => intro fs d h; simp at h
  | cons d0 rest ih =>
    intro fs d h
    rw [ensure_cons]
    rcases List.mem_cons.mp h with rfl | h
    · apply pathExists_ensure_mono
      by_cases hd : fs.pathExists (pathJoin path d) = true
      · simpa [hd]
      · simp only [hd, if_false]
        simp [FS.pathExists, FS.isDir]
    · exact ih _ d h

theorem ensure_noop (path : String) :
    ∀ (dirs : List String) (fs : FS),
      (∀ d ∈ dirs, fs.pathExists (pathJoin path d) = true) →
      ensure_directories fs path dirs = fs := by
  intro dirs
  induction dirs with
  | nil => intro fs _; rfl
  | cons d0 rest ih =>
    intro fs h
    rw [ensure_cons, if_pos (h d0 (List.mem_cons_self _ _))]
    exact ih fs (fun d hd => h d (List.mem_cons.mpr (Or.inr hd)))

/-- Creating the declared directories is idempotent. -/
theorem ensure_directories_idem (fs : FS) (path : String) (dirs : List String) :
    ensure_directories (ensure_directories fs path dirs) path dirs
      = ensure_directories fs path dirs :=
  ensure_noop path dirs _ (fun d hd => ensure_all_exist path dirs fs d hd)

/-- C9 amended: schema errors abort the whole operation before any script
executes (the load fails and a run produces no events), with no side effect;
semantic errors (duplicate command name, workflow name collision, unresolved
workflow step) are only reported — a schema-valid manifest loads successfully
with the semantic diagnostics as warnings, the only side effect being the
idempotent creation of the declared directories. -/
theorem load_semantic_vs_schema (fs : FS) (path : String) (doc : RawDict)
    (hdoc : dictGet (pathJoin path PROJECT_FILE) fs.docs = some doc) :
    (validateProjectConfigSchema doc ≠ [] →
      load_project_config fs path
        = .error (.schemaErrors (validateProjectConfigSchema doc))
      ∧ ∀ (exec : ExecOracle) (fuel : Nat) (cwd subcommand : String)
          (force dry capture : Bool),
          project_run exec (fuel + 1) ⟨fs, cwd⟩ path subcommand force dry capture
            = (⟨fs, cwd⟩, [],
               .error (.loadFailed (.schemaErrors (validateProjectConfigSchema doc)))))
    ∧ (validateProjectConfigSchema doc = [] →
      load_project_config fs path
        = .ok { config := extractConfig doc
                warnings := validate_project_commands doc
                fs := ensure_directories fs path (rawDirectories doc) })
    ∧ ensure_directories (ensure_directories fs path (rawDirectories doc)) path
        (rawDirectories doc) = ensure_directories fs path (rawDirectories doc) := by
  refine ⟨?_, ?_, ensure_directories_idem fs path (rawDirectories doc)⟩
  · intro hval
    have hne : ¬ (validateProjectConfigSchema doc).isEmpty = true := by
      simpa [List.isEmpty_iff] using hval
    have hload : load_project_config fs path
        = .error (.schemaErrors (validateProjectConfigSchema doc)) := by
      unfold load_project_config
      rw [hdoc]
      dsimp only
      rw [if_neg hne]
    refine ⟨hload, ?_⟩
    intro exec fuel cwd subcommand force dry capture
    rw [project_run]
    rw [show (⟨fs, cwd⟩ : RunState).fs = fs from rfl, hload]
  · intro hval
    unfold load_project_config
    rw [hdoc]
    dsimp only
    rw [if_pos (by simp [hval])]

/-- Manifest for the C9 witness: duplicate command names, valid schema. -/
def c9wdoc : RawDict :=
  [("commands", RawVal.list [RawVal.dict [("name", RawVal.str "b")],
                             RawVal.dict [("name", RawVal.str "b")]])]

def c9wfs : FS := { docs := [("q/project.yml", c9wdoc)] }

/-- C9 amended, witness. -/
theorem load_semantic_vs_schema_witness :
    load_project_config c9wfs "q"
      = .ok { config := extractConfig c9wdoc
              warnings := validate_project_commands c9wdoc
              fs := ensure_directories c9wfs "q" (rawDirectories c9wdoc) } :=
  (load_semantic_vs_schema c9wfs "q" c9wdoc rfl).2.1 rfl

/-! ## Claim C7 — directory checksums -/

theorem string_data_inj (s t : String) (h : s.data = t.data) : s = t := by
  cases s
  cases t
  simp only at h
  rw [h]

theorem join_cons_aux (a : String) : ∀ (l : List String) (b : String),
    l.foldl (fun r s => r ++ s) (a ++ b) = a ++ l.foldl (fun r s => r ++ s) b := by
  intro l
  induction l with
  | nil => intro b; rfl
  | cons x xs ih =>
    intro b
    show xs.foldl (fun r s => r ++ s) ((a ++ b) ++ x) = _
    rw [String.append_assoc, ih (b ++ x)]
    rfl

theorem join_cons (x : String) (l : List String) :
    String.join (x :: l) = x ++ String.join l := by
  show l.foldl (fun r s => r ++ s) ("" ++ x) = x ++ String.join l
  have : ("" ++ x) = (x ++ "") := by simp
  rw [this, join_cons_aux x l ""]
  rfl

theorem join_length : ∀ l : List String,
    (String.join l).length = (l.map String.length).sum := by
  intro l
  induction l with
  | nil => rfl
  | cons x xs ih => rw [join_cons, String.length_append, List.map_cons, List.sum_cons, ih]

/-- Replacing the string at one position of a concatenation by a different
string changes the concatenation. -/
theorem join_middle_ne : ∀ (a : List String) (c c' : String) (b : List String),
    c ≠ c' → String.join (a ++ c :: b) ≠ String.join (a ++ c' :: b) := by
  intro a
  induction a with
  | nil =>
    intro c c' b hne h
    rw [List.nil_append, List.nil_append, join_cons, join_cons] at h
    have hd := congrArg String.data h
    rw [String.data_append, String.data_append] at hd
    have hlen : c.data.length = c'.data.length := by
      have h1 := congrArg List.length hd
      simp only [List.length_append] at h1
      omega
    exact hne (string_data_inj c c' (List.append_inj_left hd hlen))
  | cons x a ih =>
    intro c c' b hne h
    rw [List.cons_append, List.cons_append, join_cons, join_cons] at h
    have hd := congrArg String.data h
    rw [String.data_append, String.data_append] at hd
    have := List.append_cancel_left hd
    exact ih c c' b hne (string_data_inj _ _ this)

/-- Strict ordering by path: used to recover uniqueness of the sorted file
list when paths are duplicate-free. -/
def pathLt (a b : String × String) : Prop := pathLe a b ∧ a.1 ≠ b.1

instance : IsAntisymm (String × String) pathLt :=
  ⟨fun a b h1 h2 => absurd
    (string_data_inj a.1 b.1 (strLeb_antisymm a.1.data b.1.data h1.1 h2.1))
    h1.2⟩

theorem sortByPath_perm (l : List (String × String)) : (sortByPath l).Perm l :=
  List.perm_insertionSort pathLe l

theorem sortByPath_sorted (l : List (String × String)) :
    (sortByPath l).Pairwise pathLe :=
  List.sorted_insertionSort pathLe l

/-- Two sorted association lists with the same multiset of entries and
duplicate-free paths are equal. -/
theorem sorted_nodup_eq (l₁ l₂ : List (String × String))
    (hperm : l₁.Perm l₂) (hs₁ : l₁.Pairwise pathLe) (hs₂ : l₂.Pairwise pathLe)
    (hnd : (l₁.map Prod.fst).Nodup) : l₁ = l₂ := by
  have hnd₂ : (l₂.map Prod.fst).Nodup := ((hperm.map Prod.fst).nodup_iff).mp hnd
  have hne₁ : l₁.Pairwise (fun a b => a.1 ≠ b.1) := List.pairwise_map.mp hnd
  have hne₂ : l₂.Pairwise (fun a b => a.1 ≠ b.1) := List.pairwise_map.mp hnd₂
  have hlt₁ : l₁.Pairwise pathLt := hs₁.and hne₁
  have hlt₂ : l₂.Pairwise pathLt := hs₂.and hne₂
  exact List.eq_of_perm_of_sorted hperm hlt₁ hlt₂

/-- Sorting by path is invariant under permutation of a duplicate-free file
list. -/
theorem sortByPath_perm_eq (l₁ l₂ : List (String × String))
    (hperm : l₁.Perm l₂) (hnd : (l₁.map Prod.fst).Nodup) :
    sortByPath l₁ = sortByPath l₂ := by
  have h : (sortByPath l₁).Perm (sortByPath l₂) :=
    (sortByPath_perm l₁).trans (hperm.trans (sortByPath_perm l₂).symm)
  have hnd' : ((sortByPath l₁).map Prod.fst).Nodup :=
    (((sortByPath_perm l₁).map Prod.fst).nodup_iff).mpr hnd
  exact sorted_nodup_eq _ _ h (sortByPath_sorted l₁) (sortByPath_sorted l₂) hnd'

theorem dictGet_some_pair_mem (l : List (String × α)) (k : String) (v : α)
    (h : dictGet k l = some v) : (k, v) ∈ l := by
  induction l with
  | nil => simp [dictGet] at h
  | cons e rest ih =>
    obtain ⟨k₁, v₁⟩ := e
    by_cases hk : k₁ = k
    · subst hk
      have hv : v₁ = v := by simpa [dictGet] using h
      subst hv
      exact List.mem_cons_self _ _
    · simp only [dictGet, if_neg hk] at h
      exact List.mem_cons.mpr (Or.inr (ih h))

/-- On association lists with duplicate-free keys, lookup only depends on the
multiset of entries. -/
theorem dictGet_perm (l₁ l₂ : List (String × α)) (k : String)
    (hperm : l₁.Perm l₂) (hnd : (l₁.map Prod.fst).Nodup) :
    dictGet k l₁ = dictGet k l₂ := by
  induction hperm with
  | nil => rfl
  | cons x h ih =>
    obtain ⟨k₁, v₁⟩ := x
    simp only [List.map_cons, List.nodup_cons] at hnd
    by_cases hk : k₁ = k
    · simp [dictGet, hk]
    · simp only [dictGet, if_neg hk]
      exact ih hnd.2
  | swap x y l =>
    obtain ⟨k₁, v₁⟩ := x
    obtain ⟨k₂, v₂⟩ := y
    simp only [List.map_cons, List.nodup_cons, List.mem_cons, not_or] at hnd
    by_cases h1 : k₁ = k <;> by_cases h2 : k₂ = k
    · exact absurd (h1.trans h2.symm) (fun e => hnd.1.1 e.symm)
    · simp [dictGet, h1, h2]
    · simp [dictGet, h1, h2]
    · simp [dictGet, h1, h2]
  | trans h₁ h₂ ih₁ ih₂ =>
    have hnd₂ := ((h₁.map Prod.fst).nodup_iff).mp hnd
    exact (ih₁ hnd).trans (ih₂ hnd₂)

/-- Reordering a duplicate-free file list on disk (directory entries
unchanged) does not change any checksum. -/
theorem get_checksum_reorder (fs₁ fs₂ : FS) (d : String)
    (hfiles : fs₁.files.Perm fs₂.files)
    (hnd : (fs₁.files.map Prod.fst).Nodup)
    (hdirs : fs₁.dirs = fs₂.dirs) :
    get_checksum fs₁ d = get_checksum fs₂ d := by
  have hlook : dictGet d fs₁.files = dictGet d fs₂.files := dictGet_perm _ _ d hfiles hnd
  have hisf : fs₁.isFile d = fs₂.isFile d := by simp [FS.isFile, hlook]
  have hisd : fs₁.isDir d = fs₂.isDir d := by simp [FS.isDir, hdirs]
  have hsort : sortByPath (filesUnder fs₁ d) = sortByPath (filesUnder fs₂ d) := by
    apply sortByPath_perm_eq
    · exact hfiles.filter _
    · exact hnd.sublist ((List.filter_sublist _).map Prod.fst)
  unfold get_checksum
  rw [hisf, hisd, hlook, hsort]

theorem dictGet_isSome_iff_mem (l : List (String × α)) (k : String) :
    (dictGet k l).isSome = true ↔ k ∈ l.map Prod.fst := by
  induction l with
  | nil => simp [dictGet]
  | cons e rest ih =>
    obtain ⟨k₁, v₁⟩ := e
    by_cases hk : k₁ = k
    · simp [dictGet, hk]
    · have hk' : ¬ k = k₁ := fun h => hk h.symm
      simp [dictGet, hk, hk', ih]

/-- Changing the content of one contained file (same path set) changes the
directory checksum. -/
theorem get_checksum_content_change (fs₁ fs₂ : FS) (d p c c' : String)
    (hfiles : fs₂.files = fs₁.files.map (fun e => if e.1 = p then (p, c') else e))
    (hlook : dictGet p fs₁.files = some c)
    (hne : c ≠ c')
    (hund : (d ++ "/").data.isPrefixOf p.data = true)
    (hnd : (fs₁.files.map Prod.fst).Nodup)
    (hnf : fs₁.isFile d = false)
    (hdir : fs₁.isDir d = true)
    (hdirs : fs₂.dirs = fs₁.dirs) :
    get_checksum fs₂ d ≠ get_checksum fs₁ d := by
  have hfst : ∀ e : String × String,
      ((fun e : String × String => if e.1 = p then (p, c') else e) e).1 = e.1 := by
    intro e
    by_cases he : e.1 = p <;> simp [he]
  have hu : filesUnder fs₂ d
      = (filesUnder fs₁ d).map (fun e => if e.1 = p then (p, c') else e) := by
    unfold filesUnder
    rw [hfiles, List.filter_map]
    congr 1
    apply List.filter_congr
    intro e _
    simp only [Function.comp_apply, hfst e]
  have hndu : ((filesUnder fs₁ d).map Prod.fst).Nodup :=
    hnd.sublist ((List.filter_sublist _).map Prod.fst)
  have hkeys : ∀ (l : List (String × String)),
      (l.map (fun e => if e.1 = p then (p, c') else e)).map Prod.fst = l.map Prod.fst := by
    intro l
    rw [List.map_map]
    apply List.map_congr_left
    intro e _
    exact hfst e
  have hsorted : sortByPath ((filesUnder fs₁ d).map (fun e => if e.1 = p then (p, c') else e))
      = (sortByPath (filesUnder fs₁ d)).map (fun e => if e.1 = p then (p, c') else e) := by
    apply sorted_nodup_eq
    · exact (sortByPath_perm _).trans (((sortByPath_perm (filesUnder fs₁ d)).map _).symm)
    · exact sortByPath_sorted _
    · refine List.Pairwise.map _ ?_ (sortByPath_sorted (filesUnder fs₁ d))
      intro a b hab
      show pathLe _ _
      unfold pathLe
      rw [hfst a, hfst b]
      exact hab
    · rw [List.Perm.nodup_iff ((sortByPath_perm _).map Prod.fst)]
      rw [hkeys]
      exact hndu
  have hmemF : (p, c) ∈ filesUnder fs₁ d := by
    refine List.mem_filter.mpr ⟨dictGet_some_pair_mem _ _ _ hlook, ?_⟩
    simpa using hund
  have hmemS : (p, c) ∈ sortByPath (filesUnder fs₁ d) :=
    ((sortByPath_perm _).mem_iff).mpr hmemF
  obtain ⟨u, w, hs⟩ := List.append_of_mem hmemS
  have hndS : ((sortByPath (filesUnder fs₁ d)).map Prod.fst).Nodup := by
    rw [List.Perm.nodup_iff ((sortByPath_perm _).map Prod.fst)]
    exact hndu
  rw [hs] at hndS
  have hndS' : (u.map Prod.fst ++ p :: w.map Prod.fst).Nodup := by
    simpa using hndS
  have hpu : p ∉ u.map Prod.fst := by
    intro hmem
    exact (List.disjoint_of_nodup_append hndS') hmem (List.mem_cons_self _ _)
  have hpw : p ∉ w.map Prod.fst :=
    (List.nodup_cons.mp (List.Nodup.of_append_right hndS')).1
  have hmapu : u.map (fun e => if e.1 = p then (p, c') else e) = u := by
    have : u.map (fun e => if e.1 = p then (p, c') else e) = u.map id := by
      apply List.map_congr_left
      intro e he
      have hep : e.1 ≠ p := fun hx => hpu (List.mem_map.mpr ⟨e, he, hx⟩)
      simp [hep]
    rw [this, List.map_id]
  have hmapw : w.map (fun e => if e.1 = p then (p, c') else e) = w := by
    have : w.map (fun e => if e.1 = p then (p, c') else e) = w.map id := by
      apply List.map_congr_left
      intro e he
      have hep : e.1 ≠ p := fun hx => hpw (List.mem_map.mpr ⟨e, he, hx⟩)
      simp [hep]
    rw [this, List.map_id]
  have hnf₂ : fs₂.isFile d = false := by
    have hkeq : fs₂.files.map Prod.fst = fs₁.files.map Prod.fst := by
      rw [hfiles]
      exact hkeys _
    unfold FS.isFile at hnf ⊢
    cases hh : (dictGet d fs₂.files).isSome with
    | false => rfl
    | true =>
      exfalso
      have hmem := (dictGet_isSome_iff_mem _ _).mp hh
      rw [hkeq] at hmem
      have ht := (dictGet_isSome_iff_mem fs₁.files d).mpr hmem
      rw [ht] at hnf
      exact Bool.noConfusion hnf
  have hdir₂ : fs₂.isDir d = true := by
    unfold FS.isDir at hdir ⊢
    rw [hdirs]
    exact hdir
  intro h
  unfold get_checksum at h
  rw [hnf, hnf₂, hdir, hdir₂] at h
  simp only [Bool.false_eq_true, if_false, if_true, Option.some.injEq, md5] at h
  rw [hu, hsorted, hs] at h
  simp only [List.map_append, List.map_cons, hmapu, hmapw, if_pos rfl] at h
  exact join_middle_ne (u.map Prod.snd) c' c (w.map Prod.snd) (Ne.symm hne) h

/-- Removing a contained file with non-empty content changes the directory
checksum. -/
theorem get_checksum_removal (fs₁ fs₂ : FS) (d p c : String)
    (hfiles : fs₁.files.Perm ((p, c) :: fs₂.files))
    (hc : c ≠ "")
    (hund : (d ++ "/").data.isPrefixOf p.data = true)
    (hdirs : fs₂.dirs = fs₁.dirs)
    (hnf₁ : fs₁.isFile d = false) (hnf₂ : fs₂.isFile d = false)
    (hdir : fs₁.isDir d = true) :
    get_checksum fs₂ d ≠ get_checksum fs₁ d := by
  have hF : (filesUnder fs₁ d).Perm ((p, c) :: filesUnder fs₂ d) := by
    have h := hfiles.filter (fun e : String × String => (d ++ "/").data.isPrefixOf e.1.data)
    have hpc : (fun e : String × String => (d ++ "/").data.isPrefixOf e.1.data) (p, c)
        = true := by
      simpa using hund
    have hcons : ((p, c) :: fs₂.files).filter
        (fun e : String × String => (d ++ "/").data.isPrefixOf e.1.data)
        = (p, c) :: filesUnder fs₂ d := by
      rw [List.filter_cons, if_pos hpc]
      rfl
    rw [hcons] at h
    exact h
  have hlen : ∀ (l : List (String × String)),
      (String.join ((sortByPath l).map Prod.snd)).length
        = ((l.map Prod.snd).map String.length).sum := by
    intro l
    rw [join_length]
    exact List.Perm.sum_eq (((sortByPath_perm l).map Prod.snd).map String.length)
  have hsum : (((filesUnder fs₁ d).map Prod.snd).map String.length).sum
      = c.length + (((filesUnder fs₂ d).map Prod.snd).map String.length).sum := by
    have h := List.Perm.sum_eq ((hF.map Prod.snd).map String.length)
    simpa using h
  have hcpos : 0 < c.length := by
    rcases hd : c.data with _ | ⟨x, xs⟩
    · exact absurd (string_data_inj c "" (by simpa using hd)) hc
    · simp [String.length, hd]
  have hdir₂ : fs₂.isDir d = true := by
    unfold FS.isDir at hdir ⊢
    rw [hdirs]
    exact hdir
  intro h
  unfold get_checksum at h
  rw [hnf₁, hnf₂, hdir, hdir₂] at h
  simp only [Bool.false_eq_true, if_false, if_true, Option.some.injEq, md5] at h
  have hlens := congrArg String.length h
  rw [hlen, hlen, hsum] at hlens
  omega

/-- C7: the checksum of a directory digests the concatenation of the raw byte
contents of every contained regular file in lexicographic full-path order;
consequently it is invariant under reordering files on disk (contents
unchanged), and it changes whenever any contained file's content changes, and
whenever a previously-included file with non-empty content is removed. -/
theorem dir_checksum_properties :
    (∀ (fs : FS) (d : String), fs.isFile d = false → fs.isDir d = true →
      get_checksum fs d
        = some (md5 (String.join ((sortByPath (filesUnder fs d)).map Prod.snd))))
    ∧ (∀ (fs₁ fs₂ : FS) (d : String),
        fs₁.files.Perm fs₂.files → (fs₁.files.map Prod.fst).Nodup →
        fs₁.dirs = fs₂.dirs → get_checksum fs₁ d = get_checksum fs₂ d)
    ∧ (∀ (fs₁ fs₂ : FS) (d p c c' : String),
        fs₂.files = fs₁.files.map (fun e => if e.1 = p then (p, c') else e) →
        dictGet p fs₁.files = some c → c ≠ c' →
        (d ++ "/").data.isPrefixOf p.data = true →
        (fs₁.files.map Prod.fst).Nodup →
        fs₁.isFile d = false → fs₁.isDir d = true → fs₂.dirs = fs₁.dirs →
        get_checksum fs₂ d ≠ get_checksum fs₁ d)
    ∧ (∀ (fs₁ fs₂ : FS) (d p c : String),
        fs₁.files.Perm ((p, c) :: fs₂.files) → c ≠ "" →
        (d ++ "/").data.isPrefixOf p.data = true →
        fs₂.dirs = fs₁.dirs →
        fs₁.isFile d = false → fs₂.isFile d = false → fs₁.isDir d = true →
        get_checksum fs₂ d ≠ get_checksum fs₁ d) := by
  refine ⟨?_, get_checksum_reorder, get_checksum_content_change, get_checksum_removal⟩
  intro fs d h1 h2
  unfold get_checksum
  rw [h1, h2]
  simp

/-- Filesystem with an empty file below `d`. -/
def c7fsA : FS := { files := [("d/a", ""), ("d/b", "x")], dirs := ["d"] }

/-- The same filesystem with the empty file `d/a` removed. -/
def c7fsB : FS := { files := [("d/b", "x")], dirs := ["d"] }

/-- C7 counterexample: removing the previously-included file `d/a`, whose
content is empty, does not change the directory checksum — the digest
concatenates raw contents with no separators, so an empty file leaves no
trace in it. -/
theorem c7_counterexample :
    c7fsB.files = c7fsA.files.erase ("d/a", "")
    ∧ get_checksum c7fsA "d" = get_checksum c7fsB "d" :=
  ⟨by decide, by rfl⟩

def c7wfs1 : FS := { files := [("e/a", "x"), ("e/b", "y")], dirs := ["e"] }

def c7wfs2 : FS := { files := [("e/b", "y"), ("e/a", "x")], dirs := ["e"] }

def c7wfs3 : FS := { files := [("e/a", "z"), ("e/b", "y")], dirs := ["e"] }

/-- C7 amended, witness: reordering the two files leaves the checksum
unchanged; changing the content of `e/a` changes it. -/
theorem dir_checksum_properties_witness :
    get_checksum c7wfs1 "e" = get_checksum c7wfs2 "e"
    ∧ get_checksum c7wfs3 "e" ≠ get_checksum c7wfs1 "e" := by
  constructor
  · exact dir_checksum_properties.2.1 c7wfs1 c7wfs2 "e" (by decide) (by decide) rfl
  · exact dir_checksum_properties.2.2.1 c7wfs1 c7wfs3 "e" "e/a" "x" "z" rfl rfl
      (by decide) (by decide) (by decide) rfl rfl rfl
